import Mathlib

/-!
# Verification of the filename-identification and rename engine (`jav_renamer.py`)

A shallow embedding of the renaming tool's core logic, with theorems checking
the natural-language specification against it.  Strings are modelled as
`List Char` (ASCII semantics for the character classes involved), file
contents as opaque strings, and the filesystem as an association list from
paths to contents.
-/

/-- Strings are modelled as lists of characters. -/
abbrev Str := List Char

/-- Coerce a Lean string literal to the `List Char` model. -/
def str (s : String) : Str := s.data

/-! ## Character classes (`[A-Za-z]`, `\d`, `[-_ ]`, ASCII case mapping) -/

/-- `[A-Za-z]` (ASCII letter). -/
def isAsciiLetter (c : Char) : Bool := ('A' ≤ c && c ≤ 'Z') || ('a' ≤ c && c ≤ 'z')

/-- `\d` restricted to ASCII digits `0`-`9`. -/
def isAsciiDigit (c : Char) : Bool := '0' ≤ c && c ≤ '9'

/-- The separator class `[-_ ]`. -/
def isSepChar (c : Char) : Bool := c = '-' || c = '_' || c = ' '

/-- Python `str.upper()` on a single ASCII character. -/
def toUpperChar (c : Char) : Char :=
  if 'a' ≤ c && c ≤ 'z' then Char.ofNat (c.toNat - 32) else c

/-! ## `sanitize_filename` (source lines 70-72)

`re.sub(r'[\/:*?"<>|]', '-', text)`.  Note that inside the character class the
sequence `\/` is a regex escape denoting the literal `/`, so the class consists
of the eight characters `/ : * ? " < > |` — the backslash itself is *not* a
member of the class. -/

/-- The characters of the class `[\/:*?"<>|]`. -/
def ILLEGAL_CHARS : List Char := ['/', ':', '*', '?', '"', '<', '>', '|']

/-- `sanitize_filename`: replace each character of the class by `'-'`
(a single-character class substitution acts characterwise). -/
def sanitize_filename (text : Str) : Str :=
  text.map (fun c => if c ∈ ILLEGAL_CHARS then '-' else c)

/-! ## Numeric normalization (source lines 86-91) -/

/-- `raw.lstrip('0')`. -/
def lstripZeros (s : Str) : Str := s.dropWhile (fun c => c = '0')

/-- Python `str.zfill(n)` for digit strings (no sign handling needed). -/
def zfill (n : Nat) (s : Str) : Str := List.replicate (n - s.length) '0' ++ s

/-- Lines 86-91: `stripped = raw.lstrip('0')`; if `len(raw) >= 4` then
`stripped or '0'` else `(stripped or '0').zfill(3)`. -/
def normalizeNum (raw : Str) : Str :=
  let stripped := lstripZeros raw
  if 4 ≤ raw.length then
    (if stripped = [] then ['0'] else stripped)
  else
    zfill 3 (if stripped = [] then ['0'] else stripped)

/-! ## The regex matcher for `([A-Za-z]{1,6})[-_ ]?(\d{2,6})`

`re.findall` scans left to right; at each position the backtracking engine
tries the letter group greedily (longest first), then the optional separator
(present first), then the digit group greedily (capped at 6, minimum 2); after
a match the scan resumes at the end of the match, otherwise one character
further on. -/

/-- Length of the maximal run of characters satisfying `p` at the head. -/
def runLen (p : Char → Bool) : Str → Nat
  | [] => 0
  | c :: cs => if p c then runLen p cs + 1 else 0

/-- Given the text following the letter group, try the optional separator and
then the digit group; returns `(sepLen, digitsLen)` on success.  The separator
is tried greedily; when the head is a separator character but fewer than two
digits follow it, the zero-width alternative also fails because the separator
character is not a digit. -/
def tryTail (rest : Str) : Option (Nat × Nat) :=
  match rest with
  | [] => none
  | c :: cs =>
    if isSepChar c then
      let d := runLen isAsciiDigit cs
      if 2 ≤ d then some (1, min d 6) else none
    else
      let d := runLen isAsciiDigit rest
      if 2 ≤ d then some (0, min d 6) else none

/-- Try letter-group lengths from `n` down to 1 (greedy backtracking);
returns `(lettersLen, sepLen, digitsLen)` for the first length that lets the
rest of the pattern match. -/
def tryLetters : Nat → Str → Option (Nat × Nat × Nat)
  | 0, _ => none
  | l + 1, s =>
    match tryTail (s.drop (l + 1)) with
    | some (sl, dl) => some (l + 1, sl, dl)
    | none => tryLetters l s

/-- Attempt a match anchored at the head of `s`. -/
def matchAt (s : Str) : Option (Nat × Nat × Nat) :=
  tryLetters (min (runLen isAsciiLetter s) 6) s

/-- Fuel-driven scan; with fuel `≥ s.length` this is Python's
`re.findall(r'([A-Za-z]{1,6})[-_ ]?(\d{2,6})', s)`, returning the list of
`(letters, digits)` group pairs in left-to-right scan order. -/
def findallGo : Nat → Str → List (Str × Str)
  | 0, _ => []
  | _ + 1, [] => []
  | fuel + 1, c :: cs =>
    match matchAt (c :: cs) with
    | some (l, sl, dl) =>
      ((c :: cs).take l, ((c :: cs).drop (l + sl)).take dl) ::
        findallGo fuel ((c :: cs).drop (l + sl + dl))
    | none => findallGo fuel cs

/-- `re.findall(r'([A-Za-z]{1,6})[-_ ]?(\d{2,6})', s, re.IGNORECASE)`. -/
def findall (s : Str) : List (Str × Str) := findallGo s.length s

/-! ## `extract_id_from_filename` (source lines 74-93) -/

/-- Lines 79-93: take the last `findall` match and return
`f"{last[0].upper()}-{num}"` with the normalized number, or `None` when there
is no match. -/
def extract_id_from_filename (filename : Str) : Option Str :=
  match (findall filename).getLast? with
  | none => none
  | some (letters, digits) =>
    some (letters.map toUpperChar ++ '-' :: normalizeNum digits)

/-! ## Literal substring removal

Used both for `str.replace(keyword, '')` (title keyword removal, line 200) and
for `re.sub(pattern, '', base)` where every configured pattern denotes a
literal string (`r'hhd800\.com@'` has the single escape `\.`, a literal dot;
line 186).  Both remove every non-overlapping occurrence, scanning left to
right. -/

/-- Fuel-driven removal of every occurrence of `pat`; with fuel `≥ s.length`
this is left-to-right non-overlapping removal. -/
def removeAllGo (pat : Str) : Nat → Str → Str
  | 0, s => s
  | _ + 1, [] => []
  | fuel + 1, c :: cs =>
    if pat ≠ [] && pat.isPrefixOf (c :: cs) then
      removeAllGo pat fuel ((c :: cs).drop pat.length)
    else
      c :: removeAllGo pat fuel cs

/-- Remove every occurrence of the literal `pat` from `s`. -/
def removeAll (pat s : Str) : Str := removeAllGo pat s.length s

/-! ## Title cleanup and the filename builder (source lines 195-221) -/

/-- The configured title noise keywords (line 59-61). -/
def TITLE_EXCLUDE_KEYWORDS : List Str := [str "【FANZA限定】"]

/-- The configured filename cleanup patterns, as the literal strings they
denote (lines 64-66). -/
def FILENAME_CLEAN_PATTERNS : List Str := [str "hhd800.com@"]

/-- Python `str.strip()` whitespace set (ASCII part). -/
def isPyWs (c : Char) : Bool :=
  c = ' ' || c = '\t' || c = '\n' || c = '\x0b' || c = '\x0c' || c = '\r'

/-- Python `str.strip()`. -/
def pyStrip (s : Str) : Str :=
  ((s.dropWhile isPyWs).reverse.dropWhile isPyWs).reverse

/-- Lines 197-205: remove each noise keyword, strip, sanitize, and truncate to
50 characters with a `"..."` marker. -/
def cleanTitleOf (raw_title : Str) : Str :=
  let no_kw := TITLE_EXCLUDE_KEYWORDS.foldl (fun t kw => removeAll kw t) raw_title
  let clean_title := sanitize_filename (pyStrip no_kw)
  if 50 < clean_title.length then clean_title.take 50 ++ str "..." else clean_title

/-- `suffix.isSuffixOf s`, i.e. Python `s.endswith(suffix)`. -/
def endsWith (s suffix : Str) : Bool := List.isSuffixOf suffix s

/-- Lines 195-221 (the successful-lookup branch): build the new filename from
the identifier, the raw title, the performer-name list, the part suffix and
the extension.  `stars` holds the display names (a dict entry contributes its
`'name'` field, a plain entry its string form). -/
def build_new_filename (jav_id : Str) (raw_title : Str) (stars : List Str)
    (part_suffix ext : Str) : Str :=
  let clean_title := cleanTitleOf raw_title
  match stars with
  | [] => jav_id ++ ' ' :: clean_title ++ part_suffix ++ ext
  | name :: _ =>
    let actor_name := sanitize_filename name
    if endsWith clean_title (' ' :: actor_name) then
      jav_id ++ ' ' :: clean_title ++ part_suffix ++ ext
    else
      jav_id ++ ' ' :: clean_title ++ part_suffix ++ ' ' :: '[' :: actor_name ++ ']' :: ext

/-! ## `os.path.splitext` (posix, basenames without slashes) -/

/-- Index of the last `'.'` in `s`, if any. -/
def rfindDot : Str → Option Nat
  | [] => none
  | c :: cs =>
    match rfindDot cs with
    | some i => some (i + 1)
    | none => if c = '.' then some 0 else none

/-- `os.path.splitext`: split at the last dot, unless every character before
it is itself a dot (then the name has no extension). -/
def splitext (p : Str) : Str × Str :=
  match rfindDot p with
  | none => (p, [])
  | some i =>
    if (p.take i).any (fun c => c ≠ '.') then (p.take i, p.drop i) else (p, [])

/-! ## Segment detection (source lines 165-172) -/

/-- `[A-Za-z0-9]`. -/
def isAlnum (c : Char) : Bool := isAsciiLetter c || isAsciiDigit c

/-- Tokenization into maximal alphanumeric runs (`re.findall(r'([A-Za-z0-9]+)', s)`);
`cur` is the reversed current run. -/
def tokenizeGo : Str → Str → List Str
  | [], cur => if cur = [] then [] else [cur.reverse]
  | c :: cs, cur =>
    if isAlnum c then tokenizeGo cs (c :: cur)
    else if cur = [] then tokenizeGo cs [] else cur.reverse :: tokenizeGo cs []

/-- Maximal alphanumeric runs of `s`, in order. -/
def tokenize (s : Str) : List Str := tokenizeGo s []

/-- `re.fullmatch(r'(?i)[A-D]|[1-4]', t)`: a single character in `A`-`D`
(either case) or `1`-`4`. -/
def isPartToken : Str → Bool
  | [c] => ('A' ≤ c && c ≤ 'D') || ('a' ≤ c && c ≤ 'd') || ('1' ≤ c && c ≤ '4')
  | _ => false

/-- Lines 166-172: the part suffix appended to the title — `' ' + token.upper()`
when the last alphanumeric token of the extension-free base is a part marker,
otherwise empty. -/
def detectPartSuffix (base_no_ext : Str) : Str :=
  match (tokenize base_no_ext).getLast? with
  | none => []
  | some last_token =>
    if isPartToken last_token then ' ' :: last_token.map toUpperChar else []

/-! ## Metadata lookup outcome (source lines 179-181) -/

/-- The fields of the resolver's result dict that the engine reads. -/
structure JavInfo where
  title : Str
  stars : List Str
deriving DecidableEq

/-- Line 181: `code != 200 or not info or not info.get('title')` — a non-200
status, a missing/empty result, or an empty title, uniformly. -/
def lookupFailed (code : Nat) (info : Option JavInfo) : Bool :=
  code ≠ 200 || info.isNone || (info.map JavInfo.title).getD [] = []

/-! ## Per-file plan computation (source lines 161-223) -/

/-- The outcome of the per-file planning stage: the file can be skipped before
any lookup (`noId`, line 162-163), hit the fallback with no local optimization
available (`noPlan`, lines 188-191), or produce a new filename (`plan`,
lines 193 and 216-221). -/
inductive PlanResult where
  | noId : PlanResult
  | noPlan : PlanResult
  | plan (new_filename : Str) : PlanResult
deriving DecidableEq

/-- Lines 161-223: extract the identifier, detect the part suffix, and build
the new filename — from the resolver's data on success, by local pattern
cleanup on lookup failure. -/
def computePlan (filename : Str) (code : Nat) (info : Option JavInfo) : PlanResult :=
  match extract_id_from_filename filename with
  | none => .noId
  | some jav_id =>
    let base_no_ext := (splitext filename).1
    let ext := (splitext filename).2
    let part_suffix := detectPartSuffix base_no_ext
    if lookupFailed code info then
      let optimized_base :=
        FILENAME_CLEAN_PATTERNS.foldl (fun b pat => removeAll pat b) base_no_ext
      if optimized_base = base_no_ext then .noPlan
      else .plan (optimized_base ++ ext)
    else
      let i := info.getD ⟨[], []⟩
      .plan (build_new_filename jav_id i.title i.stars part_suffix ext)

/-! ## The filesystem model and the apply step (source lines 227-237)

The filesystem is an association list from path to file content; `os.rename`
moves the content of the source path to the target path. -/

/-- Paths mapped to file contents. -/
abbrev FS := List (Str × Str)

/-- Content at path `p`, if a file exists there. -/
def fsGet (fs : FS) (p : Str) : Option Str :=
  (fs.find? (fun e => decide (e.1 = p))).map Prod.snd

/-- `os.path.exists`. -/
def fsExists (fs : FS) (p : Str) : Bool := (fsGet fs p).isSome

/-- `os.rename(orig, target)` for an existing source file. -/
def fsRename (fs : FS) (orig target : Str) : FS :=
  match fsGet fs orig with
  | some content => (target, content) :: fs.filter (fun e => !decide (e.1 = orig))
  | none => fs

/-- `os.path.join` for a relative second component. -/
def joinPath (a b : Str) : Str := a ++ '/' :: b

/-- Result of one file's processing: the filesystem afterwards, the increments
of the two counters, and whether the trailing rate-limit sleep of line 244 was
reached (a `continue` anywhere in the loop body skips it). -/
structure StepRes where
  fs : FS
  procInc : Nat
  errInc : Nat
  slept : Bool
deriving DecidableEq

/-- Lines 188-191 and 225-237: act on the planning outcome.  `noId` leaves the
loop at line 163, `noPlan` at line 191 (error counted); a plan is displayed
and, in preview mode, only counted; in execute mode the rename is refused when
the target path exists (error counted, file untouched) and performed
otherwise.  The trailing sleep of line 244 is reached only when no `continue`
fired. -/
def applyPlan (dry : Bool) (fs : FS) (dirpath filename : Str) :
    PlanResult → StepRes
  | .noId => ⟨fs, 0, 0, false⟩
  | .noPlan => ⟨fs, 0, 1, false⟩
  | .plan new_filename =>
    let original_path := joinPath dirpath filename
    let new_path := joinPath dirpath new_filename
    if dry then ⟨fs, 1, 0, true⟩
    else if fsExists fs new_path then ⟨fs, 0, 1, false⟩
    else ⟨fsRename fs original_path new_path, 1, 0, true⟩

/-- The planning outcome of one file under resolver `resolve` (which maps an
identifier to the status code and result of `jav_db.get_av_by_id`). -/
def planResultOf (resolve : Str → Nat × Option JavInfo) (filename : Str) :
    PlanResult :=
  let rc :=
    match extract_id_from_filename filename with
    | some jav_id => resolve jav_id
    | none => (0, none)
  computePlan filename rc.1 rc.2

/-- `True` iff the planning stage produced a new filename. -/
def PlanResult.isPlan : PlanResult → Bool
  | .plan _ => true
  | _ => false

/-- One full per-file iteration (lines 149-244): extract, resolve by the
extracted identifier, plan, apply. -/
def processFile (dry : Bool) (resolve : Str → Nat × Option JavInfo) (fs : FS)
    (dirpath filename : Str) : StepRes :=
  applyPlan dry fs dirpath filename (planResultOf resolve filename)

/-- Aggregate run state: the filesystem plus the two counters of lines
139-140. -/
structure RunState where
  fs : FS
  processed : Nat
  errors : Nat
deriving DecidableEq

/-- Process one file, accumulating the counters. -/
def stepFile (dry : Bool) (resolve : Str → Nat × Option JavInfo)
    (st : RunState) (df : Str × Str) : RunState :=
  let r := processFile dry resolve st.fs df.1 df.2
  ⟨r.fs, st.processed + r.procInc, st.errors + r.errInc⟩

/-- Process a list of `(dirpath, filename)` pairs in order. -/
def runFiles (dry : Bool) (resolve : Str → Nat × Option JavInfo)
    (st : RunState) (l : List (Str × Str)) : RunState :=
  l.foldl (stepFile dry resolve) st

/-- Lines 125-129: the one-time startup delay runs exactly in execute mode. -/
def startup_sleep (dry : Bool) : Bool := !dry

/-! ## The directory walk (source lines 143-160) -/

/-- The supported extensions (lines 53-56). -/
def SUPPORTED_EXTENSIONS : List Str :=
  [str ".mp4", str ".mkv", str ".avi", str ".wmv", str ".mov", str ".flv",
   str ".rmvb", str ".m4v",
   str ".mp3", str ".wav", str ".flac", str ".opus", str ".m4a",
   str ".srt", str ".ass", str ".vtt"]

/-- Python `str.lower()` on a single ASCII character. -/
def toLowerChar (c : Char) : Char :=
  if 'A' ≤ c && c ≤ 'Z' then Char.ofNat (c.toNat + 32) else c

/-- `filename.startswith('.')` (line 152). -/
def isHiddenName : Str → Bool
  | [] => false
  | c :: _ => c = '.'

/-- Lines 152-160: a directory entry reaches identifier extraction iff it is
not hidden and its lower-cased extension is non-empty and supported. -/
def fileEligible (filename : Str) : Bool :=
  !isHiddenName filename &&
    (let ext := (splitext filename).2
     !decide (ext = []) && decide (ext.map toLowerChar ∈ SUPPORTED_EXTENSIONS))

/-- Python string comparison (lexicographic by code point). -/
def strLt : Str → Str → Bool
  | [], [] => false
  | [], _ :: _ => true
  | _ :: _, [] => false
  | a :: as, b :: bs => if a = b then strLt as bs else decide (a < b)

/-- Stable insertion into a sorted list. -/
def insertSorted (x : Str) : List Str → List Str
  | [] => [x]
  | y :: ys => if strLt x y then x :: y :: ys else y :: insertSorted x ys

/-- `sorted(files)` (line 148): a stable sort by Python string order. -/
def sortStrs (l : List Str) : List Str := l.foldr insertSorted []

/-- A directory tree: name, subdirectories, plain files. -/
inductive FTree where
  | node (dirname : Str) (subdirs : List FTree) (files : List Str) : FTree

/-- The directory's name. -/
def FTree.dirname : FTree → Str
  | .node nm _ _ => nm

/-- The directory's subdirectories. -/
def FTree.subdirs : FTree → List FTree
  | .node _ subs _ => subs

/-- The directory's plain files. -/
def FTree.files : FTree → List Str
  | .node _ _ fs => fs

mutual
/-- Lines 143-160: the files the walk hands to identifier extraction, as
`(path components below the root, filename)` pairs, in walk order: each
directory's sorted eligible files, then its subdirectories after the pruning
of lines 145-146 (`if 'no_need' in dirs: dirs.remove('no_need')`, which
removes the first subdirectory named `no_need` from descent). -/
def walkT : FTree → List (List Str × Str)
  | .node _ subs files =>
    ((sortStrs files).filter fileEligible).map (fun f => ([], f)) ++
      walkS false subs
/-- The walk over sibling subdirectories; `removed` records whether the single
`dirs.remove('no_need')` of line 146 already took effect. -/
def walkS : Bool → List FTree → List (List Str × Str)
  | _, [] => []
  | removed, d :: ds =>
    if !removed && d.dirname = str "no_need" then walkS true ds
    else (walkT d).map (fun q => (d.dirname :: q.1, q.2)) ++ walkS removed ds
end

/-- Join a root directory with path components. -/
def joinComps (root : Str) (comps : List Str) : Str := comps.foldl joinPath root

/-- The whole `main` loop body (lines 143-244) over a directory tree `t`
rooted at path `root`, with resolver `resolve` and initial filesystem `fs`. -/
def runMain (dry : Bool) (resolve : Str → Nat × Option JavInfo) (root : Str)
    (fs : FS) (t : FTree) : RunState :=
  runFiles dry resolve ⟨fs, 0, 0⟩
    ((walkT t).map (fun q => (joinComps root q.1, q.2)))

/-! # Theorems -/

/-! ## C1: numeric normalization -/

/-- The normalization rule exactly as the specification words it: strip all
leading zeros; if the original digit count is at least 4 the result is the
stripped string (`"0"` when stripping removed everything), with no re-padding;
if the original digit count is at most 3 the result is the stripped string
left-padded with zeros to exactly 3 characters. -/
def numNormSpec (raw : Str) : Str :=
  let stripped := lstripZeros raw
  if 4 ≤ raw.length then
    (if stripped = [] then ['0'] else stripped)
  else
    List.replicate (3 - stripped.length) '0' ++ stripped

/-- C1: the code's numeric normalization agrees with the specified rule on
every digit string, and produces the four quoted examples. -/
theorem normalizeNum_spec :
    (∀ raw : Str, normalizeNum raw = numNormSpec raw) ∧
    normalizeNum (str "02") = str "002" ∧
    normalizeNum (str "007") = str "007" ∧
    normalizeNum (str "00231") = str "231" ∧
    normalizeNum (str "0000") = str "0" := by
  refine ⟨fun raw => ?_, by decide, by decide, by decide, by decide⟩
  unfold normalizeNum numNormSpec zfill
  by_cases h4 : 4 ≤ raw.length
  · simp [h4]
  · simp only [h4, if_false]
    by_cases h0 : lstripZeros raw = []
    · simp [h0]
    · simp [h0]

/-! ## C6: title sanitization (corrected: the class has eight characters) -/

/-- The nine characters the claim asserts are replaced. -/
def nineClaimChars : List Char := ['/', '\\', ':', '*', '?', '"', '<', '>', '|']

/-- C6 counterexample: the backslash is among the claim's nine characters, yet
`sanitize_filename` leaves it unchanged instead of replacing it by a hyphen
(`[\/:*?"<>|]` contains the escape `\/`, a literal forward slash, so the
backslash is not in the class). -/
theorem sanitize_filename_nine_chars_cex :
    '\\' ∈ nineClaimChars ∧
    sanitize_filename ['\\'] = ['\\'] ∧
    sanitize_filename ['\\'] ≠ ['-'] := by decide

/-- C6 amended: each occurrence of any of the eight characters
`/ : * ? " < > |` is replaced by a hyphen and no other character (the
backslash included) is changed: position by position, an illegal character
maps to `'-'` and every other character to itself, and every one of the eight
characters is really replaced. -/
theorem sanitize_filename_spec :
    (∀ s : Str, (sanitize_filename s).length = s.length) ∧
    (∀ (s : Str) (i : Nat),
      (sanitize_filename s)[i]? =
        s[i]?.map (fun c => if c ∈ ILLEGAL_CHARS then '-' else c)) ∧
    (∀ c ∈ ILLEGAL_CHARS, sanitize_filename [c] = ['-']) ∧
    (∀ c, c ∉ ILLEGAL_CHARS → sanitize_filename [c] = [c]) := by
  refine ⟨fun s => by simp [sanitize_filename],
          fun s i => by simp [sanitize_filename],
          by decide,
          fun c hc => by simp [sanitize_filename, hc]⟩

/-- C6 amended witness: the quantified parts applied at `"a\\b/c"`. -/
theorem sanitize_filename_spec_witness :
    sanitize_filename (str "a\\b/c") = str "a\\b-c" ∧
    (sanitize_filename (str "a\\b/c"))[3]? = some '-' ∧
    sanitize_filename ['/'] = ['-'] ∧
    sanitize_filename ['\\'] = ['\\'] := by
  refine ⟨by decide, ?_, ?_, ?_⟩
  · rw [sanitize_filename_spec.2.1 (str "a\\b/c") 3]; decide
  · exact sanitize_filename_spec.2.2.1 '/' (by decide)
  · exact sanitize_filename_spec.2.2.2 '\\' (by decide)

/-! ## C3: duplicate-performer suppression (corrected: the `endswith` test is
against the sanitized title alone, the part marker is not included) -/

/-- The output shape the claim describes, parametrized by the string the
duplication check probes: when `probe` ends with a space followed by the
performer's sanitized name the bracketed performer is omitted, otherwise the
output is identifier, space, title, marker, space, bracketed performer,
extension. -/
def dupCheckAgainst (probe jav_id clean_title part_suffix actor_name ext : Str) : Str :=
  if endsWith probe (' ' :: actor_name) = true then
    jav_id ++ ' ' :: clean_title ++ part_suffix ++ ext
  else
    jav_id ++ ' ' :: clean_title ++ part_suffix ++ ' ' :: '[' :: actor_name ++ ']' :: ext

/-- C3 counterexample: with title `"T"`, marker `" B"` and performer `"B"`,
the concatenation title+marker (`"T B"`) does end with `" B"`, so the claim
demands that the bracketed performer be omitted — but the code tests the title
alone and emits `"ID T B [B].mp4"`. -/
theorem build_new_filename_marker_check_cex :
    endsWith (cleanTitleOf (str "T") ++ str " B") (' ' :: sanitize_filename (str "B")) = true ∧
    build_new_filename (str "ID") (str "T") [str "B"] (str " B") (str ".mp4") = str "ID T B [B].mp4" ∧
    build_new_filename (str "ID") (str "T") [str "B"] (str " B") (str ".mp4") ≠
      dupCheckAgainst (cleanTitleOf (str "T") ++ str " B") (str "ID") (cleanTitleOf (str "T"))
        (str " B") (sanitize_filename (str "B")) (str ".mp4") := by decide

/-- C3 amended: for a non-empty performer list the builder emits the claim's
output shape, but with the duplication check performed against the sanitized
title **alone** (the part marker is appended after the check, so the
`endswith` probe is the title, not the title+marker concatenation). -/
theorem build_new_filename_spec :
    ∀ (jav_id raw_title part_suffix ext name : Str) (rest : List Str),
      build_new_filename jav_id raw_title (name :: rest) part_suffix ext =
        dupCheckAgainst (cleanTitleOf raw_title) jav_id (cleanTitleOf raw_title)
          part_suffix (sanitize_filename name) ext := by
  intro jav_id raw_title part_suffix ext name rest
  simp only [build_new_filename, dupCheckAgainst]

/-! ## C8: segment detection -/

/-- A token fullmatches `(?i)[A-D]|[1-4]` iff it is a single character in one
of the three ranges. -/
theorem isPartToken_char_iff (t : Str) :
    isPartToken t = true ↔ ∃ c, t = [c] ∧
      (('A' ≤ c ∧ c ≤ 'D') ∨ ('a' ≤ c ∧ c ≤ 'd') ∨ ('1' ≤ c ∧ c ≤ '4')) := by
  match t with
  | [] => simp [isPartToken]
  | [c] =>
    simp [isPartToken, Bool.or_eq_true, Bool.and_eq_true, decide_eq_true_eq,
      or_assoc]
  | c :: d :: t => simp [isPartToken]

/-- C8: only the last alphanumeric token of the extension-free base is
inspected; a marker is produced exactly when it is a single character in
`A`-`D` (either case) or `1`-`4`, the marker being a space plus the
upper-cased token; and the three quoted examples. -/
theorem detectPartSuffix_spec :
    (∀ base : Str,
      (detectPartSuffix base ≠ [] ↔
        ∃ c, (tokenize base).getLast? = some [c] ∧
          (('A' ≤ c ∧ c ≤ 'D') ∨ ('a' ≤ c ∧ c ≤ 'd') ∨ ('1' ≤ c ∧ c ≤ '4'))) ∧
      (∀ c, (tokenize base).getLast? = some [c] →
        (('A' ≤ c ∧ c ≤ 'D') ∨ ('a' ≤ c ∧ c ≤ 'd') ∨ ('1' ≤ c ∧ c ≤ '4')) →
        detectPartSuffix base = [' ', toUpperChar c])) ∧
    detectPartSuffix (splitext (str "ABC-123 B.mp4")).1 = str " B" ∧
    detectPartSuffix (splitext (str "ABC-123.mp4")).1 = [] ∧
    detectPartSuffix (splitext (str "ABC-123 E.mp4")).1 = [] := by
  refine ⟨fun base => ⟨?_, ?_⟩, by decide, by decide, by decide⟩
  · cases h : (tokenize base).getLast? with
    | none => simp [detectPartSuffix, h]
    | some t =>
      by_cases hp : isPartToken t = true
      · rcases (isPartToken_char_iff t).mp hp with ⟨c, rfl, hc⟩
        simp [detectPartSuffix, h, hp]
        exact hc
      · simp only [detectPartSuffix, h, hp, Bool.false_eq_true, if_false,
          ne_eq, not_true_eq_false, false_iff, not_exists, not_and]
        intro c hc
        obtain rfl : t = [c] := by injection hc
        intro hranges
        exact hp ((isPartToken_char_iff [c]).mpr ⟨c, rfl, hranges⟩)
  · intro c hc hranges
    have hp : isPartToken [c] = true := (isPartToken_char_iff [c]).mpr ⟨c, rfl, hranges⟩
    simp [detectPartSuffix, hc, hp]

/-- C8 witness: the quantified clause applied at base `"ABC-123 b"`
(lower-case marker, exercising the case-insensitive class and the
upper-casing). -/
theorem detectPartSuffix_spec_witness :
    detectPartSuffix (str "ABC-123 b") = str " B" := by
  have h := ((detectPartSuffix_spec.1 (str "ABC-123 b")).2) 'b' (by decide)
    (by decide)
  rw [h]; decide

/-! ## C4: conflict resolution (never overwrite) -/

/-- Looking up a path other than the removed one is unaffected by the
removal. -/
theorem find?_filter_ne (fs : FS) (orig p : Str) (h : p ≠ orig) :
    (fs.filter (fun e => !decide (e.1 = orig))).find? (fun e => decide (e.1 = p)) =
      fs.find? (fun e => decide (e.1 = p)) := by
  induction fs with
  | nil => rfl
  | cons e fs ih =>
    by_cases h1 : e.1 = orig
    · have hd : decide (e.1 = p) = false := by
        simp only [decide_eq_false_iff_not]
        intro hp
        exact h (hp ▸ h1)
      rw [List.filter_cons_of_neg (by simp [h1]), ih, List.find?_cons, hd]
    · rw [List.filter_cons_of_pos (by simp [h1])]
      by_cases h2 : e.1 = p
      · rw [List.find?_cons, List.find?_cons, decide_eq_true h2]
      · rw [List.find?_cons, List.find?_cons, decide_eq_false h2, ih]

/-- After a rename, the target path holds the source file's content. -/
theorem fsGet_fsRename_target {fs : FS} {orig target c : Str}
    (h : fsGet fs orig = some c) :
    fsGet (fsRename fs orig target) target = some c := by
  have hr : fsRename fs orig target =
      (target, c) :: fs.filter (fun e => !decide (e.1 = orig)) := by
    unfold fsRename
    rw [h]
  rw [hr]
  unfold fsGet
  rw [List.find?_cons, decide_eq_true rfl]
  rfl

/-- A rename touches no path other than its source and target. -/
theorem fsGet_fsRename_other {fs : FS} {orig target p : Str}
    (h1 : p ≠ orig) (h2 : p ≠ target) :
    fsGet (fsRename fs orig target) p = fsGet fs p := by
  cases hg : fsGet fs orig with
  | none =>
    unfold fsRename
    rw [hg]
  | some c =>
    have hr : fsRename fs orig target =
        (target, c) :: fs.filter (fun e => !decide (e.1 = orig)) := by
      unfold fsRename
      rw [hg]
    have ht : ((target, c).1 = p) = False := by
      simp only [eq_iff_iff, iff_false]
      exact fun hp => h2 hp.symm
    rw [hr]
    unfold fsGet
    rw [List.find?_cons, decide_eq_false (by exact fun hp => h2 hp.symm),
      find?_filter_ne fs orig p h1]

/-- C4: in execute mode a plan whose target exists is refused — error counted,
filesystem untouched; otherwise the rename moves the content to the target and
touches nothing else, so an existing file is never overwritten; and when two
files' targets collide, the second resolves to skip-exists with the first
file's content preserved at the target. -/
theorem conflict_resolution_spec :
    (∀ (fs : FS) (dirpath filename nf : Str),
      fsExists fs (joinPath dirpath nf) = true →
        applyPlan false fs dirpath filename (.plan nf) = ⟨fs, 0, 1, false⟩) ∧
    (∀ (fs : FS) (dirpath filename nf c : Str),
      fsExists fs (joinPath dirpath nf) = false →
      fsGet fs (joinPath dirpath filename) = some c →
        (applyPlan false fs dirpath filename (.plan nf)).procInc = 1 ∧
        (applyPlan false fs dirpath filename (.plan nf)).errInc = 0 ∧
        fsGet (applyPlan false fs dirpath filename (.plan nf)).fs
          (joinPath dirpath nf) = some c ∧
        (∀ p, p ≠ joinPath dirpath filename → p ≠ joinPath dirpath nf →
          fsGet (applyPlan false fs dirpath filename (.plan nf)).fs p =
            fsGet fs p)) ∧
    (∀ (fs : FS) (dirpath f1 f2 nf c1 : Str),
      fsGet fs (joinPath dirpath f1) = some c1 →
      fsExists fs (joinPath dirpath nf) = false →
        (applyPlan false fs dirpath f1 (.plan nf)).procInc = 1 ∧
        applyPlan false (applyPlan false fs dirpath f1 (.plan nf)).fs
            dirpath f2 (.plan nf) =
          ⟨(applyPlan false fs dirpath f1 (.plan nf)).fs, 0, 1, false⟩ ∧
        fsGet (applyPlan false fs dirpath f1 (.plan nf)).fs
          (joinPath dirpath nf) = some c1) := by
  refine ⟨?_, ?_, ?_⟩
  · intro fs dirpath filename nf hex
    simp [applyPlan, hex]
  · intro fs dirpath filename nf c hex hget
    refine ⟨by simp [applyPlan, hex], by simp [applyPlan, hex], ?_, ?_⟩
    · simp only [applyPlan, Bool.false_eq_true, if_false, hex]
      exact fsGet_fsRename_target hget
    · intro p hp1 hp2
      simp only [applyPlan, Bool.false_eq_true, if_false, hex]
      exact fsGet_fsRename_other hp1 hp2
  · intro fs dirpath f1 f2 nf c1 hget hex
    have h1 : applyPlan false fs dirpath f1 (.plan nf) =
        ⟨fsRename fs (joinPath dirpath f1) (joinPath dirpath nf), 1, 0, true⟩ := by
      simp [applyPlan, hex]
    have htarget : fsGet (fsRename fs (joinPath dirpath f1) (joinPath dirpath nf))
        (joinPath dirpath nf) = some c1 := fsGet_fsRename_target hget
    have hex2 : fsExists (fsRename fs (joinPath dirpath f1) (joinPath dirpath nf))
        (joinPath dirpath nf) = true := by
      simp [fsExists, htarget]
    refine ⟨by rw [h1], ?_, by rw [h1]; exact htarget⟩
    rw [h1]
    simp [applyPlan, hex2]

/-- C4 witness: a three-file collision scenario — `a.mp4` is renamed to
`T.mp4`, then `b.mp4` aiming at the same target is refused and `a.mp4`'s
content survives at the target. -/
theorem conflict_resolution_spec_witness :
    (applyPlan false [(str "/r/a.mp4", str "A"), (str "/r/b.mp4", str "B")]
      (str "/r") (str "a.mp4") (.plan (str "T.mp4"))).procInc = 1 ∧
    applyPlan false
        (applyPlan false [(str "/r/a.mp4", str "A"), (str "/r/b.mp4", str "B")]
          (str "/r") (str "a.mp4") (.plan (str "T.mp4"))).fs
        (str "/r") (str "b.mp4") (.plan (str "T.mp4")) =
      ⟨(applyPlan false [(str "/r/a.mp4", str "A"), (str "/r/b.mp4", str "B")]
          (str "/r") (str "a.mp4") (.plan (str "T.mp4"))).fs, 0, 1, false⟩ ∧
    fsGet (applyPlan false [(str "/r/a.mp4", str "A"), (str "/r/b.mp4", str "B")]
        (str "/r") (str "a.mp4") (.plan (str "T.mp4"))).fs
      (joinPath (str "/r") (str "T.mp4")) = some (str "A") :=
  conflict_resolution_spec.2.2
    [(str "/r/a.mp4", str "A"), (str "/r/b.mp4", str "B")]
    (str "/r") (str "a.mp4") (str "b.mp4") (str "T.mp4") (str "A")
    (by decide) (by decide)

/-! ## C5: preview mode performs no filesystem mutation -/

/-- C5: with `dry_run` true no per-file step touches the filesystem, a planned
file still increments the processed counter, a whole run leaves the filesystem
exactly as it started while counting one processed file per plan-producing
file, and so does the full `main` walk-and-process loop. -/
theorem preview_no_mutation_spec :
    (∀ (resolve : Str → Nat × Option JavInfo) (fs : FS) (dirpath filename : Str),
      (processFile true resolve fs dirpath filename).fs = fs) ∧
    (∀ (resolve : Str → Nat × Option JavInfo) (fs : FS) (dirpath filename nf : Str),
      planResultOf resolve filename = .plan nf →
        processFile true resolve fs dirpath filename = ⟨fs, 1, 0, true⟩) ∧
    (∀ (resolve : Str → Nat × Option JavInfo) (st : RunState) (l : List (Str × Str)),
      (runFiles true resolve st l).fs = st.fs ∧
      (runFiles true resolve st l).processed =
        st.processed + l.countP (fun df => (planResultOf resolve df.2).isPlan)) ∧
    (∀ (resolve : Str → Nat × Option JavInfo) (root : Str) (fs : FS) (t : FTree),
      (runMain true resolve root fs t).fs = fs) := by
  have h1 : ∀ (resolve : Str → Nat × Option JavInfo) (fs : FS) (dirpath filename : Str),
      (processFile true resolve fs dirpath filename).fs = fs := by
    intro resolve fs dirpath filename
    cases hpr : planResultOf resolve filename with
    | noId => simp [processFile, hpr, applyPlan]
    | noPlan => simp [processFile, hpr, applyPlan]
    | plan nf => simp [processFile, hpr, applyPlan]
  have hstep : ∀ resolve (st : RunState) df,
      stepFile true resolve st df =
        ⟨st.fs, st.processed +
            (if (planResultOf resolve df.2).isPlan then 1 else 0),
          st.errors + (if planResultOf resolve df.2 = .noPlan then 1 else 0)⟩ := by
    intro resolve st df
    cases hpr : planResultOf resolve df.2 with
    | noId => simp [stepFile, processFile, hpr, applyPlan, PlanResult.isPlan]
    | noPlan => simp [stepFile, processFile, hpr, applyPlan, PlanResult.isPlan]
    | plan nf => simp [stepFile, processFile, hpr, applyPlan, PlanResult.isPlan]
  have h3 : ∀ (resolve : Str → Nat × Option JavInfo) (st : RunState)
      (l : List (Str × Str)),
      (runFiles true resolve st l).fs = st.fs ∧
      (runFiles true resolve st l).processed =
        st.processed + l.countP (fun df => (planResultOf resolve df.2).isPlan) := by
    intro resolve st l
    induction l generalizing st with
    | nil => simp [runFiles]
    | cons df l ih =>
      have hl : runFiles true resolve st (df :: l) =
          runFiles true resolve (stepFile true resolve st df) l := rfl
      obtain ⟨ihfs, ihproc⟩ := ih (stepFile true resolve st df)
      rw [hl]
      constructor
      · rw [ihfs, hstep]
      · rw [ihproc, hstep, List.countP_cons]
        simp only []
        cases hpr : (planResultOf resolve df.2).isPlan <;> (simp; try omega)
  refine ⟨h1, ?_, h3, ?_⟩
  · intro resolve fs dirpath filename nf h
    simp [processFile, h, applyPlan]
  · intro resolve root fs t
    exact (h3 resolve ⟨fs, 0, 0⟩ _).1

/-- C5 witness: the plan-producing clause applied to a concrete file and
resolver; the filesystem is untouched and the file is counted. -/
theorem preview_no_mutation_spec_witness :
    processFile true (fun _ => (200, some ⟨str "T", []⟩))
        [(str "/r/ABC-22.mp4", str "X")] (str "/r") (str "ABC-22.mp4") =
      ⟨[(str "/r/ABC-22.mp4", str "X")], 1, 0, true⟩ :=
  preview_no_mutation_spec.2.1 (fun _ => (200, some ⟨str "T", []⟩))
    [(str "/r/ABC-22.mp4", str "X")] (str "/r") (str "ABC-22.mp4")
    (str "ABC-022 T.mp4") (by decide)

/-! ## C7: lookup failure and the local fallback -/

/-- C7: non-200 status, missing result and empty title are one uniform
failure condition; on failure the plan is the pattern-cleaned base plus the
original extension, or an error-counted skip when cleaning changed nothing
(the skip leaves the filesystem untouched in either mode); and the quoted
end-to-end example. -/
theorem lookup_failure_fallback_spec :
    (∀ (code : Nat) (info : Option JavInfo),
      lookupFailed code info = true ↔
        (code ≠ 200 ∨ info = none ∨ (info.map JavInfo.title).getD [] = [])) ∧
    (∀ (filename jav_id : Str) (code : Nat) (info : Option JavInfo),
      extract_id_from_filename filename = some jav_id →
      lookupFailed code info = true →
      computePlan filename code info =
        (if removeAll (str "hhd800.com@") (splitext filename).1 =
            (splitext filename).1
         then .noPlan
         else .plan (removeAll (str "hhd800.com@") (splitext filename).1 ++
            (splitext filename).2))) ∧
    (∀ (dry : Bool) (fs : FS) (dirpath filename : Str),
      applyPlan dry fs dirpath filename .noPlan = ⟨fs, 0, 1, false⟩) ∧
    computePlan (str "hhd800.com@XYZ-9999.mkv") 404 none =
      .plan (str "XYZ-9999.mkv") := by
  refine ⟨?_, ?_, ?_, by decide⟩
  · intro code info
    simp [lookupFailed, Option.isNone_iff_eq_none, or_assoc]
  · intro filename jav_id code info hx hf
    simp [computePlan, hx, hf, FILENAME_CLEAN_PATTERNS]
  · intro dry fs dirpath filename
    rfl

/-- C7 witness: the failure clause applied to the quoted example input with a
404 resolver response. -/
theorem lookup_failure_fallback_spec_witness :
    computePlan (str "hhd800.com@XYZ-9999.mkv") 404 none =
      (if removeAll (str "hhd800.com@")
            (splitext (str "hhd800.com@XYZ-9999.mkv")).1 =
          (splitext (str "hhd800.com@XYZ-9999.mkv")).1
       then .noPlan
       else .plan (removeAll (str "hhd800.com@")
            (splitext (str "hhd800.com@XYZ-9999.mkv")).1 ++
          (splitext (str "hhd800.com@XYZ-9999.mkv")).2)) :=
  lookup_failure_fallback_spec.2.1 (str "hhd800.com@XYZ-9999.mkv")
    (str "XYZ-9999") 404 none (by decide) (by decide)

/-! ## C9: rate limiting (corrected: `continue` paths skip the sleep) -/

/-- C9 counterexample: two eligible files that do reach the metadata lookup
but whose iterations end in a `continue` — a skip-exists outcome in execute
mode and a fallback-produced-no-change outcome — and for which the trailing
rate-limit sleep of line 244 is therefore *not* executed, contradicting
"unconditionally". -/
theorem rate_limit_unconditional_cex :
    (planResultOf (fun _ => (200, some ⟨str "T", []⟩)) (str "ABC-22.mp4") ≠
      .noId ∧
     (processFile false (fun _ => (200, some ⟨str "T", []⟩))
        [(str "/r/ABC-022 T.mp4", str "X"), (str "/r/ABC-22.mp4", str "Y")]
        (str "/r") (str "ABC-22.mp4")).slept = false) ∧
    (planResultOf (fun _ => (404, none)) (str "ABC-22.mp4") ≠ .noId ∧
     (processFile false (fun _ => (404, none))
        [(str "/r/ABC-22.mp4", str "Y")]
        (str "/r") (str "ABC-22.mp4")).slept = false) := by decide

/-- C9 amended: the per-file rate-limit sleep runs exactly when the iteration
is not left early by a `continue`: a plan must have been produced and, in
execute mode, the target must not already exist (so the sleep is skipped for
no-identifier files, for fallback-produced-no-change and for skip-exists);
the one-time startup delay runs exactly in execute mode. -/
theorem rate_limit_spec :
    (∀ (dry : Bool) (resolve : Str → Nat × Option JavInfo) (fs : FS)
        (dirpath filename : Str),
      (processFile dry resolve fs dirpath filename).slept = true ↔
        ∃ nf, planResultOf resolve filename = .plan nf ∧
          (dry = true ∨ fsExists fs (joinPath dirpath nf) = false)) ∧
    (∀ dry : Bool, startup_sleep dry = !dry) := by
  refine ⟨?_, fun _ => rfl⟩
  intro dry resolve fs dirpath filename
  cases hpr : planResultOf resolve filename with
  | noId => simp [processFile, hpr, applyPlan]
  | noPlan => simp [processFile, hpr, applyPlan]
  | plan nf =>
    cases dry with
    | true => simp [processFile, hpr, applyPlan]
    | false =>
      cases hex : fsExists fs (joinPath dirpath nf) with
      | true => simp [processFile, hpr, applyPlan, hex]
      | false => simp [processFile, hpr, applyPlan, hex]

/-! ## C10: hidden handling in the directory walk -/

/-- Insertion preserves membership. -/
theorem mem_insertSorted (a x : Str) (l : List Str) :
    a ∈ insertSorted x l ↔ a = x ∨ a ∈ l := by
  induction l with
  | nil => simp [insertSorted]
  | cons y ys ih =>
    by_cases h : strLt x y = true
    · simp [insertSorted, h]
    · simp [insertSorted, h, ih]
      tauto

/-- Sorting preserves membership. -/
theorem mem_sortStrs (a : Str) (l : List Str) : a ∈ sortStrs l ↔ a ∈ l := by
  induction l with
  | nil => simp [sortStrs]
  | cons x xs ih =>
    simp only [sortStrs, List.foldr_cons] at *
    rw [mem_insertSorted]
    simp [ih]

/-- A sibling subdirectory not named `no_need` contributes all its walk
entries, whatever the state of the one-shot pruning flag. -/
theorem walkS_mem_of (ds : List FTree) (flag : Bool) (d : FTree)
    (hmem : d ∈ ds) (hnm : d.dirname ≠ str "no_need") (q : List Str) (f : Str)
    (h : (q, f) ∈ walkT d) : (d.dirname :: q, f) ∈ walkS flag ds := by
  induction ds generalizing flag with
  | nil => cases hmem
  | cons e ds ih =>
    rcases List.mem_cons.mp hmem with rfl | hmem2
    · have hcond : ¬((!flag && decide (d.dirname = str "no_need")) = true) := by
        simp [hnm]
      rw [walkS, if_neg hcond]
      exact List.mem_append_left _ (List.mem_map.mpr ⟨(q, f), h, rfl⟩)
    · by_cases hcond : (!flag && decide (e.dirname = str "no_need")) = true
      · rw [walkS, if_pos hcond]
        exact ih true hmem2
      · rw [walkS, if_neg hcond]
        exact List.mem_append_right _ (ih flag hmem2)

mutual
/-- Every file the walk hands on is non-hidden (its own name does not start
with a dot). -/
theorem walkT_not_hidden : ∀ (t : FTree) (q : List Str) (f : Str),
    (q, f) ∈ walkT t → isHiddenName f = false
  | .node nm subs files => by
    intro q f h
    rw [walkT] at h
    rcases List.mem_append.mp h with h1 | h2
    · rcases List.mem_map.mp h1 with ⟨g, hg, he⟩
      have helig : fileEligible g = true := (List.mem_filter.mp hg).2
      injection he with he1 he2
      subst he1
      subst he2
      have := (Bool.and_eq_true _ _).mp helig
      simpa using this.1
    · exact walkS_not_hidden false subs q f h2
/-- Same, over a list of sibling subdirectories. -/
theorem walkS_not_hidden : ∀ (flag : Bool) (ds : List FTree) (q : List Str)
    (f : Str), (q, f) ∈ walkS flag ds → isHiddenName f = false
  | _, [] => by
    intro q f h
    simp [walkS] at h
  | flag, d :: ds => by
    intro q f h
    rw [walkS] at h
    split at h
    · exact walkS_not_hidden true ds q f h
    · rcases List.mem_append.mp h with h1 | h2
      · rcases List.mem_map.mp h1 with ⟨⟨qq, ff⟩, hq, he⟩
        injection he with he1 he2
        subst he2
        exact walkT_not_hidden d qq ff hq
      · exact walkS_not_hidden flag ds q f h2
end

/-- C10: the walk skips as hidden only files whose own name starts with a dot
(every walked file is non-hidden), while a dot-named subdirectory that is not
the pruned name `no_need` is still descended into: each of its non-hidden,
supported-extension files is handed to processing. -/
theorem hidden_walk_spec :
    (∀ (t : FTree) (q : List Str) (f : Str),
      (q, f) ∈ walkT t → isHiddenName f = false) ∧
    (∀ (nm : Str) (subs : List FTree) (files : List Str) (d : FTree) (f : Str),
      d ∈ subs → d.dirname ≠ str "no_need" → d.dirname.head? = some '.' →
      f ∈ d.files → isHiddenName f = false → fileEligible f = true →
      ([d.dirname], f) ∈ walkT (.node nm subs files)) := by
  constructor
  · exact walkT_not_hidden
  · intro nm subs files d f hmem hnm _hdot hf _hnothidden helig
    have hin : ([], f) ∈ walkT d := by
      cases d with
      | node dnm dsubs dfiles =>
        rw [walkT]
        refine List.mem_append_left _ (List.mem_map.mpr ⟨f, ?_, rfl⟩)
        exact List.mem_filter.mpr ⟨(mem_sortStrs f dfiles).mpr hf, helig⟩
    have := walkS_mem_of subs false d hmem hnm [] f hin
    rw [walkT]
    exact List.mem_append_right _ this

/-- C10 witness: a concrete hidden directory `.hid` (not `no_need`) whose
eligible file is walked. -/
theorem hidden_walk_spec_witness :
    ([str ".hid"], str "ABC-22.mp4") ∈
      walkT (.node (str "root")
        [.node (str ".hid") [] [str "ABC-22.mp4"]] [str "top.txt"]) :=
  hidden_walk_spec.2 (str "root")
    [FTree.node (str ".hid") [] [str "ABC-22.mp4"]] [str "top.txt"]
    (FTree.node (str ".hid") [] [str "ABC-22.mp4"]) (str "ABC-22.mp4")
    (List.mem_cons_self _ _) (by decide) (by decide) (by decide) (by decide)
    (by decide)

/-! ## C2: identifier extraction

`MatchesPat s` says some substring of `s` matches
`([A-Za-z]{1,6})[-_ ]?(\d{2,6})`: the matched substring splits into a letter
group, an optional separator and a digit group with the quantifier bounds. -/

/-- Some substring of `s` matches the identifier pattern. -/
def MatchesPat (s : Str) : Prop :=
  ∃ p L sep D q, s = p ++ L ++ sep ++ D ++ q ∧
    1 ≤ L.length ∧ L.length ≤ 6 ∧ (∀ c ∈ L, isAsciiLetter c = true) ∧
    (sep = [] ∨ ∃ c, sep = [c] ∧ isSepChar c = true) ∧
    2 ≤ D.length ∧ D.length ≤ 6 ∧ (∀ c ∈ D, isAsciiDigit c = true)

/-- The run length never exceeds the string length. -/
theorem runLen_le_length (p : Char → Bool) (s : Str) : runLen p s ≤ s.length := by
  induction s with
  | nil => simp [runLen]
  | cons c cs ih =>
    by_cases h : p c = true <;> (simp [runLen, h]; try omega)

/-- A prefix all of whose characters satisfy `p` bounds the run length from
below. -/
theorem le_runLen_append (p : Char → Bool) (L r : Str)
    (h : ∀ c ∈ L, p c = true) : L.length ≤ runLen p (L ++ r) := by
  induction L with
  | nil => simp
  | cons a L ih =>
    have ha : p a = true := h a (List.mem_cons_self a L)
    have ih2 := ih (fun c hc => h c (List.mem_cons_of_mem a hc))
    simp [runLen, ha]
    omega

/-- The first `l ≤ runLen p s` characters of `s` all satisfy `p`. -/
theorem all_take_of_le_runLen (p : Char → Bool) :
    ∀ (s : Str) (l : Nat), l ≤ runLen p s → ∀ c ∈ s.take l, p c = true := by
  intro s
  induction s with
  | nil => intro l _ c hc; simp at hc
  | cons a t ih =>
    intro l hl c hc
    cases l with
    | zero => simp at hc
    | succ m =>
      have ha : p a = true := by
        by_contra hpa
        simp [runLen, hpa] at hl
      rw [runLen, if_pos ha] at hl
      rcases List.mem_cons.mp (by simpa using hc) with rfl | hc2
      · exact ha
      · exact ih m (by omega) c hc2

/-- An ASCII digit is not a separator character. -/
theorem digit_not_sep (c : Char) (h : isAsciiDigit c = true) :
    isSepChar c = false := by
  by_contra hs
  have hs2 : isSepChar c = true := by
    cases hv : isSepChar c
    · exact absurd hv hs
    · rfl
  rcases (by simpa [isSepChar, or_assoc] using hs2 :
      c = '-' ∨ c = '_' ∨ c = ' ') with rfl | rfl | rfl <;> simp [isAsciiDigit] at h

/-- What a successful `tryTail` guarantees. -/
theorem tryTail_sound (r : Str) (sl dl : Nat)
    (h : tryTail r = some (sl, dl)) :
    2 ≤ dl ∧ dl ≤ 6 ∧ dl ≤ runLen isAsciiDigit (r.drop sl) ∧
      (sl = 0 ∨ (sl = 1 ∧ ∃ c cs, r = c :: cs ∧ isSepChar c = true)) := by
  match r with
  | [] => simp [tryTail] at h
  | c :: cs =>
    rw [tryTail] at h
    by_cases hsep : isSepChar c = true
    · rw [if_pos hsep] at h
      by_cases hd : 2 ≤ runLen isAsciiDigit cs
      · rw [if_pos hd] at h
        injection h with h1
        injection h1 with hsl hdl
        subst hsl
        subst hdl
        refine ⟨Nat.le_min.mpr ⟨hd, by omega⟩, Nat.min_le_right _ _, ?_, ?_⟩
        · simp
        · exact Or.inr ⟨rfl, c, cs, rfl, hsep⟩
      · rw [if_neg hd] at h
        exact absurd h (by simp)
    · rw [if_neg hsep] at h
      by_cases hd : 2 ≤ runLen isAsciiDigit (c :: cs)
      · rw [if_pos hd] at h
        injection h with h1
        injection h1 with hsl hdl
        subst hsl
        subst hdl
        refine ⟨Nat.le_min.mpr ⟨hd, by omega⟩, Nat.min_le_right _ _, ?_, Or.inl rfl⟩
        simp
      · rw [if_neg hd] at h
        exact absurd h (by simp)

/-- `tryTail` succeeds on any text that starts with an optional separator
followed by at least two digits. -/
theorem tryTail_complete (sep D q : Str)
    (hsep : sep = [] ∨ ∃ c, sep = [c] ∧ isSepChar c = true)
    (hD2 : 2 ≤ D.length) (hDd : ∀ c ∈ D, isAsciiDigit c = true) :
    tryTail (sep ++ D ++ q) ≠ none := by
  have hrun : 2 ≤ runLen isAsciiDigit (D ++ q) :=
    le_trans hD2 (le_runLen_append _ D q hDd)
  rcases hsep with rfl | ⟨c, rfl, hc⟩
  · match hDq : D, hD2 with
    | d0 :: D1, _ =>
      have hd0 : isAsciiDigit d0 = true := hDd d0 (List.mem_cons_self _ _)
      have hns : isSepChar d0 = false := digit_not_sep d0 hd0
      have hrun2 : 2 ≤ runLen isAsciiDigit (d0 :: (D1 ++ q)) := by
        simpa using hrun
      show tryTail ([] ++ (d0 :: D1) ++ q) ≠ none
      simp [tryTail, hns, hrun2]
  · show tryTail ([c] ++ D ++ q) ≠ none
    simp [tryTail, hc, hrun]

/-- What a successful `tryLetters` guarantees. -/
theorem tryLetters_sound (n : Nat) (s : Str) (l sl dl : Nat)
    (h : tryLetters n s = some (l, sl, dl)) :
    1 ≤ l ∧ l ≤ n ∧ tryTail (s.drop l) = some (sl, dl) := by
  induction n with
  | zero => simp [tryLetters] at h
  | succ m ih =>
    rw [tryLetters] at h
    cases ht : tryTail (s.drop (m + 1)) with
    | some v =>
      obtain ⟨v1, v2⟩ := v
      rw [ht] at h
      injection h with h1
      injection h1 with hl h2
      subst hl
      refine ⟨by omega, le_refl _, ?_⟩
      rw [ht, h2]
    | none =>
      rw [ht] at h
      obtain ⟨h1, h2, h3⟩ := ih h
      exact ⟨h1, by omega, h3⟩

/-- `tryLetters` succeeds whenever some admissible letter-group length lets
the tail match. -/
theorem tryLetters_complete (n : Nat) (s : Str) (l : Nat) (h1 : 1 ≤ l)
    (h2 : l ≤ n) (h3 : tryTail (s.drop l) ≠ none) :
    tryLetters n s ≠ none := by
  induction n with
  | zero => omega
  | succ m ih =>
    rw [tryLetters]
    cases ht : tryTail (s.drop (m + 1)) with
    | some v => simp
    | none =>
      have hlm : l ≤ m := by
        rcases Nat.lt_or_ge l (m + 1) with hlt | hge
        · omega
        · exfalso
          have : l = m + 1 := by omega
          rw [this] at h3
          exact h3 ht
      exact ih hlm

/-- `matchAt` fails on the empty string. -/
theorem matchAt_nil : matchAt [] = none := rfl

/-- A successful anchored match decomposes the string as the pattern
requires. -/
theorem matchAt_sound (s : Str) (l sl dl : Nat)
    (h : matchAt s = some (l, sl, dl)) :
    ∃ L sep D q, s = L ++ sep ++ D ++ q ∧
      1 ≤ L.length ∧ L.length ≤ 6 ∧ (∀ c ∈ L, isAsciiLetter c = true) ∧
      (sep = [] ∨ ∃ c, sep = [c] ∧ isSepChar c = true) ∧
      2 ≤ D.length ∧ D.length ≤ 6 ∧ (∀ c ∈ D, isAsciiDigit c = true) := by
  obtain ⟨h1, h2, h3⟩ := tryLetters_sound _ s l sl dl h
  have hlr : l ≤ runLen isAsciiLetter s := le_trans h2 (Nat.min_le_left _ _)
  have hl6 : l ≤ 6 := le_trans h2 (Nat.min_le_right _ _)
  have hls : l ≤ s.length := le_trans hlr (runLen_le_length _ s)
  have hLlen : (s.take l).length = l := by
    rw [List.length_take]
    omega
  have hLall : ∀ c ∈ s.take l, isAsciiLetter c = true :=
    all_take_of_le_runLen _ s l hlr
  obtain ⟨hdl2, hdl6, hdlrun, hsl⟩ := tryTail_sound (s.drop l) sl dl h3
  rcases hsl with rfl | ⟨rfl, c, cs, hcons, hc⟩
  · have hrun : dl ≤ runLen isAsciiDigit (s.drop l) := by simpa using hdlrun
    have hdls : dl ≤ (s.drop l).length := le_trans hrun (runLen_le_length _ _)
    refine ⟨s.take l, [], (s.drop l).take dl, (s.drop l).drop dl, ?_, ?_, ?_,
      hLall, Or.inl rfl, ?_, ?_, ?_⟩
    · simp [List.take_append_drop]
    · omega
    · omega
    · rw [List.length_take]
      omega
    · rw [List.length_take]
      omega
    · exact all_take_of_le_runLen _ (s.drop l) dl hrun
  · have hrun : dl ≤ runLen isAsciiDigit cs := by
      have hh : (s.drop l).drop 1 = cs := by rw [hcons]; rfl
      rwa [hh] at hdlrun
    have hdls : dl ≤ cs.length := le_trans hrun (runLen_le_length _ _)
    refine ⟨s.take l, [c], cs.take dl, cs.drop dl, ?_, ?_, ?_, hLall,
      Or.inr ⟨c, rfl, hc⟩, ?_, ?_, ?_⟩
    · have hthis : s = s.take l ++ ([c] ++ (cs.take dl ++ cs.drop dl)) := by
        rw [List.take_append_drop]
        simp only [List.cons_append, List.nil_append]
        rw [← hcons, List.take_append_drop]
      simpa [List.append_assoc] using hthis
    · omega
    · omega
    · rw [List.length_take]
      omega
    · rw [List.length_take]
      omega
    · exact all_take_of_le_runLen _ cs dl hrun

/-- An anchored decomposition makes `matchAt` succeed. -/
theorem matchAt_complete (L sep D q : Str)
    (hL1 : 1 ≤ L.length) (hL6 : L.length ≤ 6)
    (hLall : ∀ c ∈ L, isAsciiLetter c = true)
    (hsep : sep = [] ∨ ∃ c, sep = [c] ∧ isSepChar c = true)
    (hD2 : 2 ≤ D.length) (hDd : ∀ c ∈ D, isAsciiDigit c = true) :
    matchAt (L ++ sep ++ D ++ q) ≠ none := by
  have hrunL : L.length ≤ runLen isAsciiLetter (L ++ (sep ++ (D ++ q))) :=
    le_runLen_append _ L _ hLall
  have heq : L ++ sep ++ D ++ q = L ++ (sep ++ (D ++ q)) := by
    simp [List.append_assoc]
  rw [heq]
  refine tryLetters_complete _ _ L.length hL1
    (Nat.le_min.mpr ⟨hrunL, hL6⟩) ?_
  rw [List.drop_left]
  have hc := tryTail_complete sep D q hsep hD2 hDd
  simpa [List.append_assoc] using hc

/-- If an adequately fuelled scan found nothing, no position matches. -/
theorem findallGo_eq_nil (fuel : Nat) : ∀ (s : Str), s.length ≤ fuel →
    findallGo fuel s = [] → ∀ i, matchAt (s.drop i) = none := by
  induction fuel with
  | zero =>
    intro s hs _ i
    have hnil : s = [] := List.eq_nil_of_length_eq_zero (Nat.le_zero.mp hs)
    subst hnil
    simp [matchAt_nil]
  | succ m ih =>
    intro s hs hf i
    cases s with
    | nil => simp [matchAt_nil]
    | cons c cs =>
      cases hm : matchAt (c :: cs) with
      | some v =>
        obtain ⟨l, sl, dl⟩ := v
        simp [findallGo, hm] at hf
      | none =>
        have hf2 : findallGo m cs = [] := by simpa [findallGo, hm] using hf
        cases i with
        | zero => simpa using hm
        | succ j =>
          have hj := ih cs (by simpa using Nat.le_of_succ_le_succ hs) hf2 j
          simpa [List.drop_succ_cons] using hj

/-- If the scan found something, some position matches. -/
theorem findallGo_ne_nil (fuel : Nat) : ∀ (s : Str), findallGo fuel s ≠ [] →
    ∃ i, matchAt (s.drop i) ≠ none := by
  induction fuel with
  | zero =>
    intro s h
    simp [findallGo] at h
  | succ m ih =>
    intro s h
    cases s with
    | nil => simp [findallGo] at h
    | cons c cs =>
      cases hm : matchAt (c :: cs) with
      | some v => exact ⟨0, by simp [hm]⟩
      | none =>
        have h2 : findallGo m cs ≠ [] := by
          intro hc
          apply h
          simp [findallGo, hm, hc]
        obtain ⟨i, hi⟩ := ih cs h2
        exact ⟨i + 1, by simpa [List.drop_succ_cons] using hi⟩

/-- The scan is empty exactly when no substring matches the pattern. -/
theorem findall_eq_nil_iff (s : Str) : findall s = [] ↔ ¬ MatchesPat s := by
  constructor
  · intro h hm
    obtain ⟨p, L, sep, D, q, hdecomp, hL1, hL6, hLall, hsep, hD2, _hD6, hDd⟩ := hm
    have hall := findallGo_eq_nil s.length s (le_refl _) h p.length
    have hdrop : s.drop p.length = L ++ sep ++ D ++ q := by
      have hs2 : s = p ++ (L ++ (sep ++ (D ++ q))) := by
        rw [hdecomp]
        simp [List.append_assoc]
      rw [hs2, List.drop_left]
      simp [List.append_assoc]
    have hne := matchAt_complete L sep D q hL1 hL6 hLall hsep hD2 hDd
    rw [hdrop] at hall
    exact hne hall
  · intro hnm
    by_contra hne
    obtain ⟨i, hi⟩ := findallGo_ne_nil s.length s hne
    cases hm : matchAt (s.drop i) with
    | none => exact hi hm
    | some v =>
      obtain ⟨l, sl, dl⟩ := v
      obtain ⟨L, sep, D, q, hdec, hL1, hL6, hLall, hsep, hD2, hD6, hDd⟩ :=
        matchAt_sound (s.drop i) l sl dl hm
      apply hnm
      refine ⟨s.take i, L, sep, D, q, ?_, hL1, hL6, hLall, hsep, hD2, hD6, hDd⟩
      calc s = s.take i ++ s.drop i := (List.take_append_drop i s).symm
      _ = s.take i ++ (L ++ sep ++ D ++ q) := by rw [hdec]
      _ = s.take i ++ L ++ sep ++ D ++ q := by simp [List.append_assoc]

/-- C2: extraction returns `None` exactly when no substring of the filename
matches `letters(1-6)`, optional `[-_ ]` separator, `digits(2-6)`
(case-insensitively); and when matches exist the last one in left-to-right
scan order is selected, its letters upper-cased and its digits normalized. -/
theorem extract_id_spec :
    ∀ s : Str,
      (extract_id_from_filename s = none ↔ ¬ MatchesPat s) ∧
      (∀ L D : Str, (findall s).getLast? = some (L, D) →
        extract_id_from_filename s =
          some (L.map toUpperChar ++ '-' :: normalizeNum D)) := by
  intro s
  constructor
  · have hnone : extract_id_from_filename s = none ↔ findall s = [] := by
      unfold extract_id_from_filename
      cases hg : (findall s).getLast? with
      | none =>
        simp only []
        exact ⟨fun _ => List.getLast?_eq_none_iff.mp hg, fun _ => trivial⟩
      | some v =>
        obtain ⟨L, D⟩ := v
        simp only []
        constructor
        · intro h
          exact absurd h (by simp)
        · intro h
          rw [h] at hg
          simp at hg
    rw [hnone, findall_eq_nil_iff]
  · intro L D hg
    unfold extract_id_from_filename
    rw [hg]

/-- C2 witness: the spec's leading example — the site-tag prefix also matches,
the trailing code wins, letters are upper-cased and the number keeps its
3-digit padding. -/
theorem extract_id_spec_witness :
    extract_id_from_filename (str "hhd800.com@ZRK-002.mp4") =
      some (str "ZRK-002") := by
  have h := (extract_id_spec (str "hhd800.com@ZRK-002.mp4")).2
    (str "ZRK") (str "002") (by decide)
  rw [h]
  decide
